import Mathlib

/-!
Verification of the windowed multi-head attention core (`nunif/modules/attention.py`).

The development shallowly embeds the parts of the module that the spec's
testable properties talk about:

* `WindowScoreBias._gen_input` — the relative-position table construction
  (position grid, pairwise deltas, sorted deduplication, index array,
  normalization) — embedded over `Int`/`Rat` lists.
* `sliced_sdp`, `MHA`, `CrossMHA`, `WindowMHA2d`, `WindowCrossMHA2d`,
  `OverlapWindowMHA2d` — embedded at the shape level (each tensor is
  represented by its shape; Python `assert` failures and layout-adapter
  errors become `none`).
* `OverlapWindowMHA2d` with window size (1, 1) — additionally embedded at the
  value level over `Rat` to settle the pointwise-projection property.

The layout adapter (`bchw_to_bnc` / `bnc_to_bchw` from `nunif/modules/permute`)
and the softmax kernel supplied by the tensor-execution library are not part
of the analysed source; they are modelled from the spec where needed, and
those definitions say so in their doc comments.
-/

namespace AttentionSpec

/-! ## WindowScoreBias._gen_input

Embedding of the static table construction:

```python
N = window_size[0] * window_size[1]
mesh_y, mesh_x = torch.meshgrid(arange(h), arange(w), indexing="ij")
positions = torch.stack((mesh_y, mesh_x), dim=2).reshape(N, 2)
delta = torch.cat([positions[i].view(1, 2) - positions for i in range(N)], dim=0)
delta = [tuple(p) for p in delta.tolist()]
unique_delta = sorted(list(set(delta)))
index = [unique_delta.index(d) for d in delta]
```
-/

/-- The `N = h*w` window positions in row-major (meshgrid `ij`) order:
`positions[y*w + x] = (y, x)`. -/
def positions (h w : Nat) : List (Int × Int) :=
  (List.range h).flatMap (fun (y : Nat) =>
    (List.range w).map (fun (x : Nat) => ((y : Int), (x : Int))))

/-- The concatenated list of all pairwise deltas, in source order:
entry `i*N + j` is `positions[i] - positions[j]` (componentwise). -/
def deltas (h w : Nat) : List (Int × Int) :=
  (positions h w).flatMap (fun p => (positions h w).map (fun q => (p.1 - q.1, p.2 - q.2)))

/-- Lexicographic order on coordinate pairs: the order Python's `sorted`
uses on 2-tuples. -/
def lexLe (a b : Int × Int) : Prop :=
  a.1 < b.1 ∨ (a.1 = b.1 ∧ a.2 ≤ b.2)

instance : DecidableRel lexLe := fun a b => by
  unfold lexLe; infer_instance

instance : IsTotal (Int × Int) lexLe := ⟨by intro a b; unfold lexLe; omega⟩

instance : IsTrans (Int × Int) lexLe := ⟨by intro a b c; unfold lexLe; omega⟩

instance : IsAntisymm (Int × Int) lexLe := ⟨by
  intro a b hab hba
  unfold lexLe at hab hba
  have h1 : a.1 = b.1 := by omega
  have h2 : a.2 = b.2 := by omega
  cases a; cases b; simp_all⟩

/-- `unique_delta = sorted(list(set(delta)))`: deduplicate, then sort into
the canonical lexicographic order. -/
def uniqueDeltas (h w : Nat) : List (Int × Int) :=
  List.insertionSort lexLe ((deltas h w).dedup)

/-- `index = [unique_delta.index(d) for d in delta]`. -/
def indexArr (h w : Nat) : List Nat :=
  (deltas h w).map (fun d => (uniqueDeltas h w).indexOf d)

/-- `unique_delta.abs().max()`: the maximum absolute value over all (2·K)
components of the unique-delta table (a max-reduction over the tensor). -/
def maxAbsDelta (h w : Nat) : Int :=
  ((uniqueDeltas h w).map (fun d => max |d.1| |d.2|)).foldr max 0

/-- Scalar division as the tensor division `unique_delta / max` performs it:
a division by zero does not produce a finite value (IEEE gives NaN/Inf),
modelled as `none`. -/
def fdiv (a m : Rat) : Option Rat :=
  if m = 0 then none else some (a / m)

/-- `unique_delta = unique_delta / unique_delta.abs().max()`: the normalized
buffer registered as `delta`, one (possibly non-finite) entry per component. -/
def normalizedDelta (h w : Nat) : List (Option Rat × Option Rat) :=
  (uniqueDeltas h w).map (fun d =>
    (fdiv (d.1 : Rat) ((maxAbsDelta h w : Int) : Rat),
     fdiv (d.2 : Rat) ((maxAbsDelta h w : Int) : Rat)))

/-- A normalized component is a finite value inside `[-1, 1]`. -/
def compInUnit : Option Rat → Prop
  | none => False
  | some q => -1 ≤ q ∧ q ≤ 1

instance : DecidablePred compInUnit := fun o =>
  match o with
  | none => inferInstanceAs (Decidable False)
  | some _ => inferInstanceAs (Decidable (_ ∧ _))

/-! ### Supporting lemmas on the table construction -/

theorem length_flatMap_const {α β : Type} (l : List α) (f : α → List β) (k : Nat)
    (hf : ∀ a ∈ l, (f a).length = k) : (l.flatMap f).length = l.length * k := by
  induction l with
  | nil => simp
  | cons a t ih =>
      rw [List.flatMap_cons, List.length_append, hf a (by simp),
        ih (fun x hx => hf x (List.mem_cons_of_mem a hx)), List.length_cons]
      ring

theorem positions_length (h w : Nat) : (positions h w).length = h * w := by
  rw [positions, length_flatMap_const _ _ w (fun a _ => by simp), List.length_range]

theorem deltas_length (h w : Nat) : (deltas h w).length = (h * w) ^ 2 := by
  rw [deltas, length_flatMap_const _ _ (h * w) (fun a _ => by
    rw [List.length_map, positions_length]), positions_length]
  ring

theorem mem_positions {h w : Nat} {p : Int × Int} (hp : p ∈ positions h w) :
    0 ≤ p.1 ∧ p.1 ≤ (h : Int) - 1 ∧ 0 ≤ p.2 ∧ p.2 ≤ (w : Int) - 1 := by
  rw [positions, List.mem_flatMap] at hp
  obtain ⟨y, hy, hp⟩ := hp
  rw [List.mem_map] at hp
  obtain ⟨x, hx, rfl⟩ := hp
  rw [List.mem_range] at hy hx
  refine ⟨?_, ?_, ?_, ?_⟩ <;> dsimp only <;> omega

theorem mem_positions_of {h w y x : Nat} (hy : y < h) (hx : x < w) :
    ((y : Int), (x : Int)) ∈ positions h w := by
  rw [positions, List.mem_flatMap]
  refine ⟨y, List.mem_range.mpr hy, ?_⟩
  rw [List.mem_map]
  exact ⟨x, List.mem_range.mpr hx, rfl⟩

theorem mem_deltas {h w : Nat} {d : Int × Int} :
    d ∈ deltas h w ↔ ∃ p ∈ positions h w, ∃ q ∈ positions h w,
      d = (p.1 - q.1, p.2 - q.2) := by
  rw [deltas, List.mem_flatMap]
  constructor
  · rintro ⟨p, hp, hd⟩
    rw [List.mem_map] at hd
    obtain ⟨q, hq, rfl⟩ := hd
    exact ⟨p, hp, q, hq, rfl⟩
  · rintro ⟨p, hp, q, hq, rfl⟩
    exact ⟨p, hp, List.mem_map.mpr ⟨q, hq, rfl⟩⟩

theorem mem_uniqueDeltas_iff {h w : Nat} {d : Int × Int} :
    d ∈ uniqueDeltas h w ↔ d ∈ deltas h w := by
  rw [uniqueDeltas, List.mem_insertionSort, List.mem_dedup]

theorem uniqueDeltas_nodup (h w : Nat) : (uniqueDeltas h w).Nodup := by
  rw [uniqueDeltas]
  exact ((List.perm_insertionSort lexLe _).nodup_iff).mpr (List.nodup_dedup _)

theorem indexOf_lt_length_of_mem {α : Type} [BEq α] [LawfulBEq α] {a : α} {l : List α}
    (h : a ∈ l) : l.indexOf a < l.length := by
  induction l with
  | nil => cases h
  | cons b t ih =>
      by_cases hba : b = a
      · subst hba
        rw [List.indexOf_cons]
        simp
      · have hne : (b == a) = false := by
          simp [hba]
        rw [List.indexOf_cons, hne]
        have hat : a ∈ t := by
          rcases List.mem_cons.mp h with h1 | h1
          · exact absurd h1.symm hba
          · exact h1
        simpa using Nat.succ_lt_succ (ih hat)

theorem indexArr_valid {h w : Nat} {i : Nat} (hi : i ∈ indexArr h w) :
    i < (uniqueDeltas h w).length := by
  rw [indexArr, List.mem_map] at hi
  obtain ⟨d, hd, rfl⟩ := hi
  exact indexOf_lt_length_of_mem (mem_uniqueDeltas_iff.mpr hd)

/-- The set of deltas realizable inside an `h × w` window. -/
def deltaRange (h w : Nat) : Finset (Int × Int) :=
  Finset.Icc (-(h : Int) + 1) ((h : Int) - 1) ×ˢ Finset.Icc (-(w : Int) + 1) ((w : Int) - 1)

theorem deltaRange_card (h w : Nat) : (deltaRange h w).card = (2 * h - 1) * (2 * w - 1) := by
  rw [deltaRange, Finset.card_product, Int.card_Icc, Int.card_Icc]
  have e1 : ((h : Int) - 1 + 1 - (-(h : Int) + 1)).toNat = 2 * h - 1 := by omega
  have e2 : ((w : Int) - 1 + 1 - (-(w : Int) + 1)).toNat = 2 * w - 1 := by omega
  rw [e1, e2]

theorem uniqueDeltas_toFinset_subset (h w : Nat) :
    (uniqueDeltas h w).toFinset ⊆ deltaRange h w := by
  intro d hd
  rw [List.mem_toFinset, mem_uniqueDeltas_iff, mem_deltas] at hd
  obtain ⟨p, hp, q, hq, rfl⟩ := hd
  have h1 := mem_positions hp
  have h2 := mem_positions hq
  rw [deltaRange, Finset.mem_product, Finset.mem_Icc, Finset.mem_Icc]
  dsimp only
  omega

theorem uniqueDeltas_length_le (h w : Nat) :
    (uniqueDeltas h w).length ≤ (2 * h - 1) * (2 * w - 1) := by
  have hcard := Finset.card_le_card (uniqueDeltas_toFinset_subset h w)
  rw [List.toFinset_card_of_nodup (uniqueDeltas_nodup h w), deltaRange_card] at hcard
  exact hcard

theorem deltaRange_subset_toFinset (h w : Nat) (hh : 1 ≤ h) (hw : 1 ≤ w) :
    deltaRange h w ⊆ (uniqueDeltas h w).toFinset := by
  intro d hd
  rw [deltaRange, Finset.mem_product, Finset.mem_Icc, Finset.mem_Icc] at hd
  rw [List.mem_toFinset, mem_uniqueDeltas_iff, mem_deltas]
  obtain ⟨⟨ha1, ha2⟩, hb1, hb2⟩ := hd
  have hy : ∃ y1 y2 : Nat, y1 < h ∧ y2 < h ∧ (y1 : Int) - (y2 : Int) = d.1 := by
    rcases le_or_lt 0 d.1 with hc | hc
    · exact ⟨d.1.toNat, 0, by omega, by omega, by omega⟩
    · exact ⟨0, (-d.1).toNat, by omega, by omega, by omega⟩
  have hx : ∃ x1 x2 : Nat, x1 < w ∧ x2 < w ∧ (x1 : Int) - (x2 : Int) = d.2 := by
    rcases le_or_lt 0 d.2 with hc | hc
    · exact ⟨d.2.toNat, 0, by omega, by omega, by omega⟩
    · exact ⟨0, (-d.2).toNat, by omega, by omega, by omega⟩
  obtain ⟨y1, y2, hy1, hy2, hyd⟩ := hy
  obtain ⟨x1, x2, hx1, hx2, hxd⟩ := hx
  refine ⟨((y1 : Int), (x1 : Int)), mem_positions_of hy1 hx1,
    ((y2 : Int), (x2 : Int)), mem_positions_of hy2 hx2, ?_⟩
  dsimp only
  rw [hyd, hxd]

theorem uniqueDeltas_length_eq (h w : Nat) (hh : 1 ≤ h) (hw : 1 ≤ w) :
    (uniqueDeltas h w).length = (2 * h - 1) * (2 * w - 1) := by
  have heq : (uniqueDeltas h w).toFinset = deltaRange h w :=
    Finset.Subset.antisymm (uniqueDeltas_toFinset_subset h w)
      (deltaRange_subset_toFinset h w hh hw)
  rw [← List.toFinset_card_of_nodup (uniqueDeltas_nodup h w), heq, deltaRange_card]

/-! ### Normalization lemmas -/

theorem zero_le_foldr_max (l : List Int) : 0 ≤ l.foldr max 0 := by
  induction l with
  | nil => simp
  | cons a t ih =>
      rw [List.foldr_cons]
      exact le_max_of_le_right ih

theorem le_foldr_max {x : Int} {l : List Int} (hx : x ∈ l) : x ≤ l.foldr max 0 := by
  induction l with
  | nil => cases hx
  | cons a t ih =>
      rw [List.foldr_cons]
      rcases List.mem_cons.mp hx with rfl | hmem
      · exact le_max_left _ _
      · exact le_max_of_le_right (ih hmem)

theorem abs_le_maxAbsDelta {h w : Nat} {d : Int × Int} (hd : d ∈ uniqueDeltas h w) :
    |d.1| ≤ maxAbsDelta h w ∧ |d.2| ≤ maxAbsDelta h w := by
  have hm : max |d.1| |d.2| ∈ (uniqueDeltas h w).map (fun d => max |d.1| |d.2|) :=
    List.mem_map.mpr ⟨d, hd, rfl⟩
  have hle := le_foldr_max hm
  exact ⟨le_trans (le_max_left _ _) hle, le_trans (le_max_right _ _) hle⟩

theorem one_le_maxAbsDelta {h w : Nat} (hh : 1 ≤ h) (hw : 1 ≤ w)
    (h2 : 2 ≤ h ∨ 2 ≤ w) : 1 ≤ maxAbsDelta h w := by
  rcases h2 with h2 | h2
  · have hmem : ((1 : Int), (0 : Int)) ∈ uniqueDeltas h w := by
      rw [mem_uniqueDeltas_iff, mem_deltas]
      refine ⟨(((1 : Nat) : Int), ((0 : Nat) : Int)),
        mem_positions_of (show 1 < h by omega) (show 0 < w by omega),
        (((0 : Nat) : Int), ((0 : Nat) : Int)),
        mem_positions_of (show 0 < h by omega) (show 0 < w by omega), ?_⟩
      norm_num
    have := (abs_le_maxAbsDelta hmem).1
    simpa using this
  · have hmem : ((0 : Int), (1 : Int)) ∈ uniqueDeltas h w := by
      rw [mem_uniqueDeltas_iff, mem_deltas]
      refine ⟨(((0 : Nat) : Int), ((1 : Nat) : Int)),
        mem_positions_of (show 0 < h by omega) (show 1 < w by omega),
        (((0 : Nat) : Int), ((0 : Nat) : Int)),
        mem_positions_of (show 0 < h by omega) (show 0 < w by omega), ?_⟩
      norm_num
    have := (abs_le_maxAbsDelta hmem).2
    simpa using this

theorem fdiv_in_unit {a m : Int} (hm : 1 ≤ m) (ha : |a| ≤ m) :
    compInUnit (fdiv (a : Rat) ((m : Int) : Rat)) := by
  have hmQ : (0 : Rat) < ((m : Int) : Rat) := by exact_mod_cast lt_of_lt_of_le Int.zero_lt_one hm
  rw [fdiv, if_neg (ne_of_gt hmQ)]
  have habsQ : |(a : Rat)| ≤ ((m : Int) : Rat) := by
    rw [← Int.cast_abs]
    exact_mod_cast ha
  have hq : |(a : Rat) / ((m : Int) : Rat)| ≤ 1 := by
    rw [abs_div, abs_of_pos hmQ]
    exact (div_le_one hmQ).mpr habsQ
  exact abs_le.mp hq

/-! ### Determinism lemma: any enumeration order of the delta set yields the
same sorted table -/

theorem uniqueDeltas_canonical (h w : Nat) (l : List (Int × Int))
    (hl : l.Perm ((deltas h w).dedup)) :
    List.insertionSort lexLe l = uniqueDeltas h w ∧
      (deltas h w).map (fun d => (List.insertionSort lexLe l).indexOf d) = indexArr h w := by
  have hperm : (List.insertionSort lexLe l).Perm
      (List.insertionSort lexLe ((deltas h w).dedup)) :=
    (List.perm_insertionSort lexLe l).trans
      (hl.trans (List.perm_insertionSort lexLe _).symm)
  have heq : List.insertionSort lexLe l = uniqueDeltas h w :=
    List.eq_of_perm_of_sorted hperm (List.sorted_insertionSort lexLe l)
      (List.sorted_insertionSort lexLe _)
  exact ⟨heq, by rw [heq, indexArr]⟩

/-! ## Claim theorems for the bias table -/

/-- **C1**: for every window geometry (h, w), the unique-delta table built by
`WindowScoreBias._gen_input` has at most (2h−1)(2w−1) entries, the index
array has exactly (h·w)² entries, and every index entry is a valid index into
the unique-delta table; in particular for window (2, 2) there are exactly 9
unique deltas, a 16-entry index array, and each index value lies in [0, 9). -/
theorem bias_table_size_bound (h w : Nat) :
    ((uniqueDeltas h w).length ≤ (2 * h - 1) * (2 * w - 1) ∧
      (indexArr h w).length = (h * w) ^ 2 ∧
      ∀ i ∈ indexArr h w, i < (uniqueDeltas h w).length) ∧
    ((uniqueDeltas 2 2).length = 9 ∧ (indexArr 2 2).length = 16 ∧
      ∀ i ∈ indexArr 2 2, i < 9) := by
  refine ⟨⟨uniqueDeltas_length_le h w, ?_, fun i hi => indexArr_valid hi⟩,
    by decide, by decide, by decide⟩
  rw [indexArr, List.length_map, deltas_length]

/-- Witness for C1 at the window geometry (3, 2). -/
theorem bias_table_size_bound_witness :
    (indexArr 3 2).length = 36 ∧ (uniqueDeltas 3 2).length ≤ 15 := by
  have hmain := bias_table_size_bound 3 2
  refine ⟨?_, ?_⟩
  · have := hmain.1.2.1
    norm_num at this
    exact this
  · have := hmain.1.1
    norm_num at this
    exact this

/-- **C10**: for every window geometry (h, w) with h ≥ 1 and w ≥ 1, the
number of unique relative deltas is exactly (2h−1)(2w−1): the bound is
attained with equality because the window positions form a full h×w grid and
every delta with |Δy| ≤ h−1, |Δx| ≤ w−1 occurs. -/
theorem unique_delta_count_exact (h w : Nat) (hh : 1 ≤ h) (hw : 1 ≤ w) :
    (uniqueDeltas h w).length = (2 * h - 1) * (2 * w - 1) :=
  uniqueDeltas_length_eq h w hh hw

/-- Witness for C10 at the window geometry (3, 2): 5 · 3 = 15 unique deltas. -/
theorem unique_delta_count_exact_witness :
    1 ≤ 3 ∧ 1 ≤ 2 ∧ (uniqueDeltas 3 2).length = (2 * 3 - 1) * (2 * 2 - 1) :=
  ⟨by decide, by decide, unique_delta_count_exact 3 2 (by decide) (by decide)⟩

/-- **C9**: WindowScoreBias table construction is deterministic: whatever
order the (unordered) set of deltas is enumerated in, sorting yields the same
canonical unique-delta table and index array, so two instances built with the
same (h, w) hold identical tables. -/
theorem bias_table_deterministic (h w : Nat) (l1 l2 : List (Int × Int))
    (h1 : l1.Perm ((deltas h w).dedup)) (h2 : l2.Perm ((deltas h w).dedup)) :
    List.insertionSort lexLe l1 = List.insertionSort lexLe l2 ∧
    List.insertionSort lexLe l1 = uniqueDeltas h w ∧
    (deltas h w).map (fun d => (List.insertionSort lexLe l1).indexOf d) =
      (deltas h w).map (fun d => (List.insertionSort lexLe l2).indexOf d) ∧
    (deltas h w).map (fun d => (List.insertionSort lexLe l1).indexOf d) = indexArr h w := by
  obtain ⟨e1, f1⟩ := uniqueDeltas_canonical h w l1 h1
  obtain ⟨e2, f2⟩ := uniqueDeltas_canonical h w l2 h2
  exact ⟨e1.trans e2.symm, e1, f1.trans f2.symm, f1⟩

/-- Witness for C9 at window (2, 2), with the set enumerated once in first
occurrence order and once reversed. -/
theorem bias_table_deterministic_witness :
    ((deltas 2 2).dedup.reverse.Perm ((deltas 2 2).dedup) ∧
      (deltas 2 2).dedup.Perm ((deltas 2 2).dedup)) ∧
    List.insertionSort lexLe (deltas 2 2).dedup.reverse =
      List.insertionSort lexLe (deltas 2 2).dedup :=
  ⟨⟨List.reverse_perm _, List.Perm.refl _⟩,
    (bias_table_deterministic 2 2 _ _ (List.reverse_perm _) (List.Perm.refl _)).1⟩

/-- **C7** counterexample: for window geometry (1, 1) the unique-delta table
is [(0, 0)], its maximum absolute component is 0, and the normalization
divides by zero (0/0 in the tensor library gives NaN), so the resulting
buffer component is not a finite value in [−1, 1]. -/
theorem normalized_delta_counterexample :
    ¬ (∀ p ∈ normalizedDelta 1 1, compInUnit p.1 ∧ compInUnit p.2) := by
  intro hall
  have hm : ((none : Option Rat), (none : Option Rat)) ∈ normalizedDelta 1 1 := by decide
  exact (hall _ hm).1

/-- **C7** (amended): for every window geometry other than (1, 1), the stored
normalized unique-delta buffer — every delta divided by the maximum absolute
component over the table — has every component a finite value in [−1, 1]. -/
theorem normalized_delta_in_unit (h w : Nat) (hne : ¬(h = 1 ∧ w = 1)) :
    ∀ p ∈ normalizedDelta h w, compInUnit p.1 ∧ compInUnit p.2 := by
  intro p hp
  rw [normalizedDelta, List.mem_map] at hp
  obtain ⟨d, hd, rfl⟩ := hp
  have habs := abs_le_maxAbsDelta hd
  obtain ⟨p0, hp0, q0, hq0, hdq⟩ := mem_deltas.mp (mem_uniqueDeltas_iff.mp hd)
  have hb := mem_positions hp0
  have hh : 1 ≤ h := by omega
  have hw : 1 ≤ w := by omega
  have h2 : 2 ≤ h ∨ 2 ≤ w := by omega
  have hm1 : 1 ≤ maxAbsDelta h w := one_le_maxAbsDelta hh hw h2
  exact ⟨fdiv_in_unit hm1 habs.1, fdiv_in_unit hm1 habs.2⟩

/-- Witness for the amended C7 at window (2, 2). -/
theorem normalized_delta_in_unit_witness :
    ¬((2 : Nat) = 1 ∧ (2 : Nat) = 1) ∧
      ∀ p ∈ normalizedDelta 2 2, compInUnit p.1 ∧ compInUnit p.2 :=
  ⟨by decide, normalized_delta_in_unit 2 2 (by decide)⟩

/-! ## Shape-level embedding of the attention operators

Each tensor is represented by its shape; a Python exception (a failed
`assert`, a `ZeroDivisionError`, or a layout-adapter shape error) is `none`.
-/

/-- Shape (batch, tokens, channels) of a 3-D sequence tensor. -/
structure Shape3 where
  batch : Nat
  tokens : Nat
  chans : Nat
deriving DecidableEq

/-- Shape (batch, channels, height, width) of a 4-D feature-map tensor. -/
structure Shape4 where
  batch : Nat
  chans : Nat
  height : Nat
  width : Nat
deriving DecidableEq

/-- The SDP kernel backends of `torch.nn.attention.SDPBackend`. -/
inductive SDPBackend where
  | FLASH_ATTENTION
  | EFFICIENT_ATTENTION
  | MATH
deriving DecidableEq

/-- `use_flash_attention(flag)`: the backend list handed to `sdpa_kernel`;
`flag=False` restricts execution to the reference MATH path. -/
def use_flash_attention (flag : Bool) : List SDPBackend :=
  if flag then [.FLASH_ATTENTION, .EFFICIENT_ATTENTION, .MATH] else [.MATH]

/-- The backend list `sliced_sdp` runs under: `use_flash = B <= 65535`. -/
def sliced_sdp_backends (B : Nat) : List SDPBackend :=
  use_flash_attention (decide (B ≤ 65535))

/-- `sliced_sdp`'s dispatch: the backend list is chosen from the batch size,
and the same attention kernel (the external `F.scaled_dot_product_attention`,
abstracted as `kernel`) is invoked whichever list is active. -/
def sliced_sdp_run {α β : Type} (kernel : α → β) (B : Nat) (inp : α) :
    List SDPBackend × β :=
  (sliced_sdp_backends B, kernel inp)

/-- Shape behaviour of `sliced_sdp(q, k, v, num_heads)`:
`assert C % num_heads == 0` (AssertionError when it fails; `C % 0` is a
ZeroDivisionError in Python); the result is reshaped back to
(B, N, qkv_dim * num_heads). -/
def sliced_sdp_shape (s : Shape3) (num_heads : Nat) : Option Shape3 :=
  if num_heads = 0 then none
  else if s.chans % num_heads = 0 then
    some ⟨s.batch, s.tokens, s.chans / num_heads * num_heads⟩
  else none

/-- Shape behaviour of `nn.Linear(in_f, out_f)` on a (B, N, C) input:
requires C = in_f, replaces the channel dim by out_f. -/
def Linear_shape (in_f out_f : Nat) (s : Shape3) : Option Shape3 :=
  if s.chans = in_f then some ⟨s.batch, s.tokens, out_f⟩ else none

/-- `x.split(size, dim=-1)` unpacked into exactly three chunks. -/
def split3_shape (size : Nat) (s : Shape3) : Option (Shape3 × Shape3 × Shape3) :=
  if s.chans = 3 * size then
    some (⟨s.batch, s.tokens, size⟩, ⟨s.batch, s.tokens, size⟩, ⟨s.batch, s.tokens, size⟩)
  else none

/-- `x.split(size, dim=-1)` unpacked into exactly two chunks. -/
def split2_shape (size : Nat) (s : Shape3) : Option (Shape3 × Shape3) :=
  if s.chans = 2 * size then
    some (⟨s.batch, s.tokens, size⟩, ⟨s.batch, s.tokens, size⟩)
  else none

/-- Configuration of a constructed `MHA` module. -/
structure MHAState where
  qkv_dim : Nat
  num_heads : Nat
  embed_dim : Nat
deriving DecidableEq

/-- `MHA.__init__(embed_dim, num_heads, qkv_dim)`: when `qkv_dim is None`,
`assert embed_dim % num_heads == 0` then `qkv_dim = embed_dim // num_heads`
(`% 0` raises ZeroDivisionError); an explicit `qkv_dim` skips the check.
(The `hasattr(F, "scaled_dot_product_attention")` capability check is assumed
to pass: the spec requires torch >= 2.0.) -/
def MHA_init (embed_dim num_heads : Nat) (qkv_dim : Option Nat) : Option MHAState :=
  match qkv_dim with
  | some d => some ⟨d, num_heads, embed_dim⟩
  | none =>
      if num_heads = 0 then none
      else if embed_dim % num_heads = 0 then
        some ⟨embed_dim / num_heads, num_heads, embed_dim⟩
      else none

/-- Shape behaviour of `MHA.forward`: qkv projection to width
`qkv_dim*num_heads*3`, split in three, `sliced_sdp`, head projection back to
`embed_dim`. -/
def MHA_forward_shape (st : MHAState) (s : Shape3) : Option Shape3 :=
  (Linear_shape st.embed_dim (st.qkv_dim * st.num_heads * 3) s).bind fun x =>
  (split3_shape (st.qkv_dim * st.num_heads) x).bind fun qkv =>
  (sliced_sdp_shape qkv.1 st.num_heads).bind fun y =>
  Linear_shape (st.qkv_dim * st.num_heads) st.embed_dim y

/-- Configuration of a constructed `CrossMHA` module. -/
structure CrossMHAState where
  qkv_dim : Nat
  num_heads : Nat
  embed_dim : Nat
deriving DecidableEq

/-- Shape behaviour of `CrossMHA.forward(q, kv)`:
`assert q.shape == kv.shape` first, then q projection, kv projection split
into k and v, `sliced_sdp`, head projection. -/
def CrossMHA_forward_shape (st : CrossMHAState) (qs kvs : Shape3) : Option Shape3 :=
  if qs = kvs then
    (Linear_shape st.embed_dim (st.qkv_dim * st.num_heads) qs).bind fun q =>
    (Linear_shape st.embed_dim (st.qkv_dim * st.num_heads * 2) kvs).bind fun kv =>
    (split2_shape (st.qkv_dim * st.num_heads) kv).bind fun _ =>
    (sliced_sdp_shape q st.num_heads).bind fun y =>
    Linear_shape (st.qkv_dim * st.num_heads) st.embed_dim y
  else none

/-- Modelled from the spec: the layout adapter `bchw_to_bnc` (from
`nunif/modules/permute`, not part of the analysed source) partitions a
(B, C, H, W) map with window (wh, ww) into (B·(H/wh)·(W/ww), wh·ww, C);
feature-map height and width must be divisible by the window extents — the
invariant is enforced by the adapter. -/
def bchw_to_bnc_shape (s : Shape4) (win : Nat × Nat) : Option Shape3 :=
  if 0 < win.1 ∧ 0 < win.2 ∧ s.height % win.1 = 0 ∧ s.width % win.2 = 0 then
    some ⟨s.batch * (s.height / win.1) * (s.width / win.2), win.1 * win.2, s.chans⟩
  else none

/-- Modelled from the spec: the layout adapter `bnc_to_bchw` is the exact
inverse of `bchw_to_bnc`: it accepts exactly the windowed sequence that
partitioning the target shape produces, and restores that shape. -/
def bnc_to_bchw_shape (s : Shape3) (out : Shape4) (win : Nat × Nat) : Option Shape4 :=
  if bchw_to_bnc_shape out win = some s then some out else none

/-- Shape behaviour of `WindowMHA2d.forward`: partition, MHA per window,
reassemble to `out_shape = src.shape`. -/
def WindowMHA2d_forward_shape (st : MHAState) (win : Nat × Nat) (s : Shape4) :
    Option Shape4 :=
  (bchw_to_bnc_shape s win).bind fun x =>
  (MHA_forward_shape st x).bind fun y =>
  bnc_to_bchw_shape y s win

/-- Shape behaviour of `WindowCrossMHA2d.forward(x1, x2)`: both maps are
partitioned, CrossMHA runs per co-located window pair, and the result is
reassembled to `out_shape = x1.shape`. -/
def WindowCrossMHA2d_forward_shape (st : CrossMHAState) (win : Nat × Nat)
    (s1 s2 : Shape4) : Option Shape4 :=
  (bchw_to_bnc_shape s1 win).bind fun x1 =>
  (bchw_to_bnc_shape s2 win).bind fun x2 =>
  (CrossMHA_forward_shape st x1 x2).bind fun y =>
  bnc_to_bchw_shape y s1 win

/-- Configuration of a constructed `OverlapWindowMHA2d` module
(`pad_h = win_h // 2`, `pad_w = win_w // 2` are derived). -/
structure OverlapState where
  in_channels : Nat
  num_heads : Nat
  qkv_dim : Nat
  win_h : Nat
  win_w : Nat
deriving DecidableEq

/-- Shape behaviour of a 1×1 `nn.Conv2d(in_f, out_f)`. -/
def Conv1x1_shape (in_f out_f : Nat) (s : Shape4) : Option Shape4 :=
  if s.chans = in_f then some ⟨s.batch, out_f, s.height, s.width⟩ else none

/-- `F.pad(x, [pw, pw, ph, ph])` with non-negative amounts: grows W by 2·pw
and H by 2·ph. -/
def pad_shape (s : Shape4) (ph pw : Nat) : Shape4 :=
  ⟨s.batch, s.chans, s.height + 2 * ph, s.width + 2 * pw⟩

/-- `F.pad(x, [-pw, -pw, -ph, -ph])`: negative padding crops. -/
def crop_shape (s : Shape4) (ph pw : Nat) : Option Shape4 :=
  if 2 * ph ≤ s.height ∧ 2 * pw ≤ s.width then
    some ⟨s.batch, s.chans, s.height - 2 * ph, s.width - 2 * pw⟩
  else none

/-- Shape behaviour of `OverlapWindowMHA2d.forward_mha`: split the projected
windows into q, k, v and run `sliced_sdp`. -/
def Overlap_forward_mha_shape (st : OverlapState) (s : Shape3) : Option Shape3 :=
  (split3_shape (st.qkv_dim * st.num_heads) s).bind fun qkv =>
  sliced_sdp_shape qkv.1 st.num_heads

/-- Shape behaviour of `OverlapWindowMHA2d.forward`: qkv projection; branch 1
windows the unshifted map; branch 2 windows the half-window zero-padded map
and crops afterwards; both branches are summed (same shape required) and the
head projection restores `in_channels`. -/
def OverlapWindowMHA2d_forward_shape (st : OverlapState) (s : Shape4) : Option Shape4 :=
  (Conv1x1_shape st.in_channels (st.qkv_dim * st.num_heads * 3) s).bind fun x =>
  (bchw_to_bnc_shape x (st.win_h, st.win_w)).bind fun x1 =>
  (bchw_to_bnc_shape (pad_shape x (st.win_h / 2) (st.win_w / 2)) (st.win_h, st.win_w)).bind
    fun x2 =>
  (Overlap_forward_mha_shape st x1).bind fun y1 =>
  (Overlap_forward_mha_shape st x2).bind fun y2 =>
  (bnc_to_bchw_shape y1 ⟨x.batch, y1.chans, x.height, x.width⟩
    (st.win_h, st.win_w)).bind fun z1 =>
  (bnc_to_bchw_shape y2 ⟨x.batch, y2.chans, x.height + 2 * (st.win_h / 2),
    x.width + 2 * (st.win_w / 2)⟩ (st.win_h, st.win_w)).bind fun z2 =>
  (crop_shape z2 (st.win_h / 2) (st.win_w / 2)).bind fun z2c =>
  if z1 = z2c then Conv1x1_shape (st.qkv_dim * st.num_heads) st.in_channels z1 else none

/-! ### Shape computation lemmas -/

theorem sliced_sdp_shape_of_heads {s : Shape3} {nh : Nat} (hnh : 0 < nh) (q : Nat)
    (hc : s.chans = q * nh) :
    sliced_sdp_shape s nh = some ⟨s.batch, s.tokens, q * nh⟩ := by
  rw [sliced_sdp_shape, if_neg (by omega), hc, if_pos (Nat.mul_mod_left q nh)]
  rw [Nat.mul_div_cancel _ hnh]

theorem MHA_forward_shape_eq (st : MHAState) (s : Shape3) (hc : s.chans = st.embed_dim)
    (hnh : 0 < st.num_heads) :
    MHA_forward_shape st s = some ⟨s.batch, s.tokens, st.embed_dim⟩ := by
  rw [MHA_forward_shape, Linear_shape, if_pos hc, Option.some_bind, split3_shape]
  dsimp only
  rw [if_pos (show st.qkv_dim * st.num_heads * 3 = 3 * (st.qkv_dim * st.num_heads) by ring),
    Option.some_bind]
  rw [sliced_sdp_shape_of_heads hnh st.qkv_dim rfl, Option.some_bind]
  rw [Linear_shape, if_pos rfl]

theorem CrossMHA_forward_shape_eq (st : CrossMHAState) (s : Shape3)
    (hc : s.chans = st.embed_dim) (hnh : 0 < st.num_heads) :
    CrossMHA_forward_shape st s s = some ⟨s.batch, s.tokens, st.embed_dim⟩ := by
  rw [CrossMHA_forward_shape, if_pos rfl, Linear_shape, if_pos hc, Option.some_bind,
    Linear_shape, if_pos hc, Option.some_bind, split2_shape]
  dsimp only
  rw [if_pos (show st.qkv_dim * st.num_heads * 2 = 2 * (st.qkv_dim * st.num_heads) by ring),
    Option.some_bind]
  rw [sliced_sdp_shape_of_heads hnh st.qkv_dim rfl, Option.some_bind]
  rw [Linear_shape, if_pos rfl]

theorem bchw_to_bnc_shape_eq {s : Shape4} {win : Nat × Nat} (h1 : 0 < win.1)
    (h2 : 0 < win.2) (h3 : s.height % win.1 = 0) (h4 : s.width % win.2 = 0) :
    bchw_to_bnc_shape s win =
      some ⟨s.batch * (s.height / win.1) * (s.width / win.2), win.1 * win.2, s.chans⟩ := by
  rw [bchw_to_bnc_shape, if_pos ⟨h1, h2, h3, h4⟩]

theorem bnc_to_bchw_shape_eq {x : Shape3} {s : Shape4} {win : Nat × Nat}
    (h : bchw_to_bnc_shape s win = some x) : bnc_to_bchw_shape x s win = some s := by
  rw [bnc_to_bchw_shape, if_pos h]

theorem WindowMHA2d_shape_preserved (st : MHAState) (win : Nat × Nat) (s : Shape4)
    (h1 : 0 < win.1) (h2 : 0 < win.2) (h3 : s.height % win.1 = 0)
    (h4 : s.width % win.2 = 0) (hc : st.embed_dim = s.chans) (hnh : 0 < st.num_heads) :
    WindowMHA2d_forward_shape st win s = some s := by
  rw [WindowMHA2d_forward_shape, bchw_to_bnc_shape_eq h1 h2 h3 h4, Option.some_bind,
    MHA_forward_shape_eq st _ hc.symm hnh, Option.some_bind]
  exact bnc_to_bchw_shape_eq (by rw [bchw_to_bnc_shape_eq h1 h2 h3 h4, hc])

theorem WindowCrossMHA2d_shape_preserved (st : CrossMHAState) (win : Nat × Nat)
    (s : Shape4) (h1 : 0 < win.1) (h2 : 0 < win.2) (h3 : s.height % win.1 = 0)
    (h4 : s.width % win.2 = 0) (hc : st.embed_dim = s.chans) (hnh : 0 < st.num_heads) :
    WindowCrossMHA2d_forward_shape st win s s = some s := by
  rw [WindowCrossMHA2d_forward_shape, bchw_to_bnc_shape_eq h1 h2 h3 h4, Option.some_bind,
    Option.some_bind, CrossMHA_forward_shape_eq st _ hc.symm hnh, Option.some_bind]
  exact bnc_to_bchw_shape_eq (by rw [bchw_to_bnc_shape_eq h1 h2 h3 h4, hc])

theorem Overlap_forward_mha_shape_eq (st : OverlapState) (s : Shape3)
    (hc : s.chans = st.qkv_dim * st.num_heads * 3) (hnh : 0 < st.num_heads) :
    Overlap_forward_mha_shape st s = some ⟨s.batch, s.tokens, st.qkv_dim * st.num_heads⟩ := by
  rw [Overlap_forward_mha_shape, split3_shape, if_pos (by rw [hc]; ring), Option.some_bind]
  exact sliced_sdp_shape_of_heads hnh st.qkv_dim rfl

theorem OverlapWindowMHA2d_shape_preserved (st : OverlapState) (s : Shape4)
    (hwh : 0 < st.win_h) (hww : 0 < st.win_w)
    (h3 : s.height % st.win_h = 0) (h4 : s.width % st.win_w = 0)
    (h5 : (s.height + 2 * (st.win_h / 2)) % st.win_h = 0)
    (h6 : (s.width + 2 * (st.win_w / 2)) % st.win_w = 0)
    (hc : s.chans = st.in_channels) (hnh : 0 < st.num_heads) :
    OverlapWindowMHA2d_forward_shape st s = some s := by
  rw [OverlapWindowMHA2d_forward_shape, Conv1x1_shape, if_pos hc, Option.some_bind]
  rw [bchw_to_bnc_shape_eq (s := ⟨s.batch, st.qkv_dim * st.num_heads * 3, s.height, s.width⟩)
    hwh hww h3 h4, Option.some_bind]
  rw [pad_shape]
  rw [bchw_to_bnc_shape_eq (s := ⟨s.batch, st.qkv_dim * st.num_heads * 3,
    s.height + 2 * (st.win_h / 2), s.width + 2 * (st.win_w / 2)⟩) hwh hww h5 h6,
    Option.some_bind]
  rw [Overlap_forward_mha_shape_eq st _ rfl hnh, Option.some_bind]
  rw [Overlap_forward_mha_shape_eq st _ rfl hnh, Option.some_bind]
  rw [bnc_to_bchw_shape_eq (by rw [bchw_to_bnc_shape_eq hwh hww h3 h4]), Option.some_bind]
  rw [bnc_to_bchw_shape_eq (by rw [bchw_to_bnc_shape_eq hwh hww h5 h6]), Option.some_bind]
  dsimp only
  rw [crop_shape, if_pos (by constructor <;> dsimp only <;> omega), Option.some_bind]
  have hz : (⟨s.batch, st.qkv_dim * st.num_heads, s.height, s.width⟩ : Shape4) =
      ⟨s.batch, st.qkv_dim * st.num_heads, s.height + 2 * (st.win_h / 2) - 2 * (st.win_h / 2),
        s.width + 2 * (st.win_w / 2) - 2 * (st.win_w / 2)⟩ := by
    congr 1 <;> omega
  rw [if_pos hz, Conv1x1_shape, if_pos rfl, ← hc]

/-! ## Claim theorems for the attention operators -/

/-- **C2** counterexample: `sliced_sdp` DOES re-check the divisibility
invariant: on an input of 3 channels with 2 heads (3 not divisible by 2) the
`assert C % num_heads == 0` raises, contradicting the claim that it raises no
precondition failure of its own. -/
theorem sliced_sdp_recheck_counterexample :
    ¬ ((2 : Nat) ∣ (⟨1, 1, 3⟩ : Shape3).chans) ∧ sliced_sdp_shape ⟨1, 1, 3⟩ 2 = none :=
  ⟨by decide, by decide⟩

/-- **C2** (amended): `sliced_sdp` itself re-checks the caller-level
invariant with `assert C % num_heads == 0` and raises its own precondition
failure on every input whose channel count is not divisible by num_heads. -/
theorem sliced_sdp_asserts_divisibility (s : Shape3) (nh : Nat)
    (hnd : ¬ (nh ∣ s.chans)) : sliced_sdp_shape s nh = none := by
  have hmod : s.chans % nh ≠ 0 := fun hmz => hnd (Nat.dvd_of_mod_eq_zero hmz)
  rw [sliced_sdp_shape]
  rcases Nat.eq_zero_or_pos nh with h0 | hpos
  · rw [if_pos h0]
  · rw [if_neg (by omega), if_neg hmod]

/-- Witness for the amended C2: 3 channels, 2 heads. -/
theorem sliced_sdp_asserts_divisibility_witness :
    ¬ ((2 : Nat) ∣ (⟨4, 5, 3⟩ : Shape3).chans) ∧ sliced_sdp_shape ⟨4, 5, 3⟩ 2 = none :=
  ⟨by decide, sliced_sdp_asserts_divisibility ⟨4, 5, 3⟩ 2 (by decide)⟩

/-- **C3**: the backend choice of `sliced_sdp` is a function of the batch
size alone: above 65535 only the reference MATH path is allowed, at or below
65535 the fused kernels are enabled (with the MATH fallback still listed);
and the computed result — the same external SDP kernel applied to the same
input — is independent of the batch-size-driven backend choice. -/
theorem sliced_sdp_backend_policy (B : Nat) :
    (65535 < B → sliced_sdp_backends B = [SDPBackend.MATH]) ∧
    (B ≤ 65535 → sliced_sdp_backends B =
      [SDPBackend.FLASH_ATTENTION, SDPBackend.EFFICIENT_ATTENTION, SDPBackend.MATH]) ∧
    (∀ (α β : Type) (kernel : α → β) (inp : α) (B2 : Nat),
      (sliced_sdp_run kernel B inp).2 = (sliced_sdp_run kernel B2 inp).2) := by
  refine ⟨fun hB => ?_, fun hB => ?_, fun α β kernel inp B2 => rfl⟩
  · have hd : decide (B ≤ 65535) = false := decide_eq_false (by omega)
    rw [sliced_sdp_backends, hd]
    rfl
  · have hd : decide (B ≤ 65535) = true := decide_eq_true hB
    rw [sliced_sdp_backends, hd]
    rfl

/-- Witness for C3 at batch sizes 65536 and 512. -/
theorem sliced_sdp_backend_policy_witness :
    (65535 < 65536 ∧ sliced_sdp_backends 65536 = [SDPBackend.MATH]) ∧
    (512 ≤ 65535 ∧ sliced_sdp_backends 512 =
      [SDPBackend.FLASH_ATTENTION, SDPBackend.EFFICIENT_ATTENTION, SDPBackend.MATH]) :=
  ⟨⟨by decide, (sliced_sdp_backend_policy 65536).1 (by decide)⟩,
    ⟨by decide, (sliced_sdp_backend_policy 512).2.1 (by decide)⟩⟩

/-- **C4**: MHA construction fails exactly when embed_dim is not evenly
divisible by num_heads and no explicit qkv_dim is given;
`MHA(embed_dim=64, num_heads=7)` fails, the same construction with an
explicit qkv_dim succeeds, and `MHA(embed_dim=64, num_heads=8)` succeeds and
preserves input shape (2, 16, 64). -/
theorem mha_init_divisibility (embed_dim num_heads : Nat) (hpos : 1 ≤ num_heads) :
    (MHA_init embed_dim num_heads none = none ↔ ¬ (num_heads ∣ embed_dim)) ∧
    (∀ d : Nat, MHA_init embed_dim num_heads (some d) ≠ none) ∧
    MHA_init 64 7 none = none ∧
    MHA_init 64 7 (some 9) ≠ none ∧
    ∃ st : MHAState, MHA_init 64 8 none = some st ∧
      MHA_forward_shape st ⟨2, 16, 64⟩ = some ⟨2, 16, 64⟩ := by
  have hne : num_heads ≠ 0 := by omega
  refine ⟨⟨?_, ?_⟩, fun d => by rw [MHA_init]; exact fun hcon => Option.noConfusion hcon,
    by decide, by decide, ⟨8, 8, 64⟩, by decide, by decide⟩
  · intro hnone hdvd
    have hmod : embed_dim % num_heads = 0 := Nat.mod_eq_zero_of_dvd hdvd
    rw [MHA_init, if_neg hne, if_pos hmod] at hnone
    exact Option.noConfusion hnone
  · intro hnd
    have hmod : embed_dim % num_heads ≠ 0 := fun hmz => hnd (Nat.dvd_of_mod_eq_zero hmz)
    rw [MHA_init, if_neg hne, if_neg hmod]

/-- Witness for C4 at embed_dim 64, num_heads 7. -/
theorem mha_init_divisibility_witness :
    1 ≤ 7 ∧ MHA_init 64 7 none = none :=
  ⟨by decide, (mha_init_divisibility 64 7 (by decide)).2.2.1⟩

/-- **C5**: `CrossMHA.forward` asserts `q.shape == kv.shape` and raises on
every call with differing shapes; in particular q of shape (4, 9, 32) with
kv of shape (4, 10, 32) fails. -/
theorem cross_mha_shape_mismatch (st : CrossMHAState) (qs kvs : Shape3)
    (hne : qs ≠ kvs) :
    CrossMHA_forward_shape st qs kvs = none ∧
    CrossMHA_forward_shape st ⟨4, 9, 32⟩ ⟨4, 10, 32⟩ = none := by
  refine ⟨by rw [CrossMHA_forward_shape, if_neg hne], ?_⟩
  rw [CrossMHA_forward_shape, if_neg (by decide)]

/-- Witness for C5: token counts 9 vs 10 with a 32-channel 4-head module. -/
theorem cross_mha_shape_mismatch_witness :
    (⟨4, 9, 32⟩ : Shape3) ≠ ⟨4, 10, 32⟩ ∧
    CrossMHA_forward_shape ⟨8, 4, 32⟩ ⟨4, 9, 32⟩ ⟨4, 10, 32⟩ = none :=
  ⟨by decide, (cross_mha_shape_mismatch ⟨8, 4, 32⟩ ⟨4, 9, 32⟩ ⟨4, 10, 32⟩ (by decide)).1⟩

/-- **C6** counterexample: with window geometry (3, 3) and a 3×3 input —
spatial dims divisible by the window extents, channels matching, so a valid
input in the claim's sense — `OverlapWindowMHA2d.forward` fails instead of
preserving the shape: the half-window zero-padded branch is 5×5, which the
layout adapter rejects (5 is not divisible by 3). -/
theorem overlap_window_shape_counterexample :
    (⟨1, 8, 3, 3⟩ : Shape4).height % 3 = 0 ∧ (⟨1, 8, 3, 3⟩ : Shape4).width % 3 = 0 ∧
    OverlapWindowMHA2d_forward_shape ⟨8, 2, 4, 3, 3⟩ ⟨1, 8, 3, 3⟩ = none :=
  ⟨by decide, by decide, by decide⟩

/-- **C6** (amended): for every valid input (spatial dims divisible by the
window extents, channel count matching the module, at least one head),
WindowMHA2d and WindowCrossMHA2d preserve the input shape; OverlapWindowMHA2d
preserves it provided additionally the half-window zero-padded spatial dims
remain divisible by the window extents (which holds automatically for even or
unit window extents). -/
theorem window_attention_shape_preservation
    (stM : MHAState) (stC : CrossMHAState) (stO : OverlapState)
    (win : Nat × Nat) (s : Shape4)
    (h1 : 0 < win.1) (h2 : 0 < win.2)
    (h3 : s.height % win.1 = 0) (h4 : s.width % win.2 = 0)
    (hcM : stM.embed_dim = s.chans) (hnM : 0 < stM.num_heads)
    (hcC : stC.embed_dim = s.chans) (hnC : 0 < stC.num_heads)
    (hwhO : 0 < stO.win_h) (hwwO : 0 < stO.win_w)
    (h3O : s.height % stO.win_h = 0) (h4O : s.width % stO.win_w = 0)
    (h5O : (s.height + 2 * (stO.win_h / 2)) % stO.win_h = 0)
    (h6O : (s.width + 2 * (stO.win_w / 2)) % stO.win_w = 0)
    (hcO : s.chans = stO.in_channels) (hnO : 0 < stO.num_heads) :
    WindowMHA2d_forward_shape stM win s = some s ∧
    WindowCrossMHA2d_forward_shape stC win s s = some s ∧
    OverlapWindowMHA2d_forward_shape stO s = some s :=
  ⟨WindowMHA2d_shape_preserved stM win s h1 h2 h3 h4 hcM hnM,
    WindowCrossMHA2d_shape_preserved stC win s h1 h2 h3 h4 hcC hnC,
    OverlapWindowMHA2d_shape_preserved stO s hwhO hwwO h3O h4O h5O h6O hcO hnO⟩

/-- Witness for the amended C6: 8-channel 4×4 maps, window (2, 2), 2 heads. -/
theorem window_attention_shape_preservation_witness :
    WindowMHA2d_forward_shape ⟨4, 2, 8⟩ (2, 2) ⟨2, 8, 4, 4⟩ = some ⟨2, 8, 4, 4⟩ ∧
    WindowCrossMHA2d_forward_shape ⟨4, 2, 8⟩ (2, 2) ⟨2, 8, 4, 4⟩ ⟨2, 8, 4, 4⟩ =
      some ⟨2, 8, 4, 4⟩ ∧
    OverlapWindowMHA2d_forward_shape ⟨8, 2, 4, 2, 2⟩ ⟨2, 8, 4, 4⟩ = some ⟨2, 8, 4, 4⟩ :=
  window_attention_shape_preservation ⟨4, 2, 8⟩ ⟨4, 2, 8⟩ ⟨8, 2, 4, 2, 2⟩ (2, 2) ⟨2, 8, 4, 4⟩
    (by decide) (by decide) (by decide) (by decide) (by decide) (by decide) (by decide)
    (by decide) (by decide) (by decide) (by decide) (by decide) (by decide) (by decide)
    (by decide) (by decide)

/-! ## Value-level embedding of OverlapWindowMHA2d with window size (1, 1)

For window (1, 1) the module has `pad_h = pad_w = 1 // 2 = 0` and every
window holds a single token, so the layout adapter turns each spatial
position into its own length-1 sequence; both branches therefore act
per-position. The attention kernel is modelled from the spec formula
`softmax(q·kᵗ · scale + mask) · v` (mask absent: `forward` passes
`attn_mask=None` by default), with the exponential map and the scale factor
abstracted as parameters supplied by the external tensor-execution library.
-/

/-- A (batch, channels, height, width) feature map over `Rat`, with an
arbitrary (finite) channel index type. -/
abbrev FMap (B : Nat) (ι : Type) (H W : Nat) : Type :=
  Fin B → ι → Fin H → Fin W → Rat

/-- A 1×1 `nn.Conv2d` at value level: per position, an affine map of the
channel vector (this is `qkv_proj` / `head_proj` of `OverlapWindowMHA2d`). -/
def conv1x1 {B H W : Nat} {ι κ : Type} [Fintype ι] (wt : κ → ι → Rat) (bias : κ → Rat)
    (x : FMap B ι H W) : FMap B κ H W :=
  fun b co y xx => bias co + ∑ ci, wt co ci * x b ci y xx

/-- Modelled from the spec: softmax with the exponential map `e` abstracted
(supplied by the external tensor-execution collaborator). -/
def softmaxExp (e : Rat → Rat) {n : Nat} (s : Fin n → Rat) (i : Fin n) : Rat :=
  e (s i) / ∑ j, e (s j)

/-- Modelled from the spec: (mask-free) scaled dot-product attention,
`softmax(scale · q·kᵗ) · v` per output token and channel; `scale` abstracts
the `1/sqrt(d)` factor. -/
def sdpa (e : Rat → Rat) (scale : Rat) {n d : Nat} (q k v : Fin n → Fin d → Rat) :
    Fin n → Fin d → Rat :=
  fun i c => ∑ j, softmaxExp e (fun j2 => scale * ∑ r, q i r * k j2 r) j * v j c

/-- `sliced_sdp` on a length-1 token sequence: the channel axis is viewed as
heads × per-head channels and `sdpa` runs per head on the single token. -/
def sliced_sdp_n1 (e : Rat → Rat) (scale : Rat) {nh dq : Nat}
    (q k v : Fin nh × Fin dq → Rat) : Fin nh × Fin dq → Rat :=
  fun hc => sdpa e scale (n := 1)
    (fun _ r => q (hc.1, r)) (fun _ r => k (hc.1, r)) (fun _ r => v (hc.1, r)) 0 hc.2

/-- `OverlapWindowMHA2d.forward_mha` under window (1, 1): each position is
its own window; the projected channels split into the q, k, v thirds
(`x.split(qkv_dim * num_heads, dim=-1)`). -/
def forward_mha_win1 (e : Rat → Rat) (scale : Rat) {B H W nh dq : Nat}
    (x : FMap B (Fin 3 × Fin nh × Fin dq) H W) : FMap B (Fin nh × Fin dq) H W :=
  fun b c y xx =>
    sliced_sdp_n1 e scale (fun hc => x b (0, hc) y xx)
      (fun hc => x b (1, hc) y xx) (fun hc => x b (2, hc) y xx) c

/-- `F.pad` with zero padding amounts (window (1, 1) gives `pad_h = pad_w =
0`) is the identity, as is the subsequent zero crop. -/
def padZero {B H W : Nat} {ι : Type} (x : FMap B ι H W) : FMap B ι H W := x

/-- `OverlapWindowMHA2d.forward` for window (1, 1): qkv projection, the two
branch attentions (branch 2 pads and crops by zero), branch sum, head
projection. -/
def OverlapWindowMHA2d_forward_win1 (e : Rat → Rat) (scale : Rat)
    {B H W Cin nh dq : Nat}
    (wqkv : Fin 3 × Fin nh × Fin dq → Fin Cin → Rat)
    (bqkv : Fin 3 × Fin nh × Fin dq → Rat)
    (whead : Fin Cin → Fin nh × Fin dq → Rat) (bhead : Fin Cin → Rat)
    (x : FMap B (Fin Cin) H W) : FMap B (Fin Cin) H W :=
  let xq := conv1x1 wqkv bqkv x
  let x1 := forward_mha_win1 e scale xq
  let x2 := forward_mha_win1 e scale (padZero xq)
  conv1x1 whead bhead (fun b c y xx => x1 b c y xx + x2 b c y xx)

/-! ### Value-level lemmas -/

theorem sdpa_single (e : Rat → Rat) (scale : Rat) {d : Nat}
    (he : ∀ t, 0 < e t) (q k v : Fin 1 → Fin d → Rat) (c : Fin d) :
    sdpa e scale q k v 0 c = v 0 c := by
  rw [sdpa]
  rw [Fin.sum_univ_one, softmaxExp, Fin.sum_univ_one]
  rw [div_self (ne_of_gt (he _)), one_mul]

theorem forward_mha_win1_eq_v (e : Rat → Rat) (scale : Rat) {B H W nh dq : Nat}
    (he : ∀ t, 0 < e t) (x : FMap B (Fin 3 × Fin nh × Fin dq) H W)
    (b : Fin B) (c : Fin nh × Fin dq) (y : Fin H) (xx : Fin W) :
    forward_mha_win1 e scale x b c y xx = x b (2, c) y xx := by
  rw [forward_mha_win1, sliced_sdp_n1, sdpa_single e scale he]

theorem conv1x1_pointwise {B H W : Nat} {ι κ : Type} [Fintype ι] (wt : κ → ι → Rat)
    (bias : κ → Rat) (u v : FMap B ι H W) (b : Fin B) (y : Fin H) (xx : Fin W)
    (hagree : ∀ ci, u b ci y xx = v b ci y xx) (co : κ) :
    conv1x1 wt bias u b co y xx = conv1x1 wt bias v b co y xx := by
  simp only [conv1x1]
  congr 1
  exact Finset.sum_congr rfl (fun ci _ => by rw [hagree ci])

/-- **C8**: OverlapWindowMHA2d constructed with window size (1, 1)
degenerates to a pointwise (per-position) projection: whenever two inputs
agree at a position (all channels), the outputs agree at that position (all
channels) — each output position depends only on the same input position,
with no cross-token mixing, for every abstract (positive) exponential map and
scale factor. -/
theorem overlap_window_1x1_pointwise (e : Rat → Rat) (scale : Rat)
    {B H W Cin nh dq : Nat}
    (wqkv : Fin 3 × Fin nh × Fin dq → Fin Cin → Rat)
    (bqkv : Fin 3 × Fin nh × Fin dq → Rat)
    (whead : Fin Cin → Fin nh × Fin dq → Rat) (bhead : Fin Cin → Rat)
    (x1 x2 : FMap B (Fin Cin) H W) (b : Fin B) (y : Fin H) (xx : Fin W)
    (he : ∀ t, 0 < e t) (hagree : ∀ ci, x1 b ci y xx = x2 b ci y xx) :
    ∀ co, OverlapWindowMHA2d_forward_win1 e scale wqkv bqkv whead bhead x1 b co y xx =
      OverlapWindowMHA2d_forward_win1 e scale wqkv bqkv whead bhead x2 b co y xx := by
  intro co
  simp only [OverlapWindowMHA2d_forward_win1, padZero]
  apply conv1x1_pointwise
  intro ci
  rw [forward_mha_win1_eq_v e scale he, forward_mha_win1_eq_v e scale he]
  rw [conv1x1_pointwise wqkv bqkv x1 x2 b y xx hagree (2, ci)]

/-- Concrete data for the C8 witness: a 1-channel 1×2 map pair agreeing at
position (0, 0) and differing at (0, 1), with all-ones weights. -/
def wqkvC : Fin 3 × Fin 1 × Fin 1 → Fin 1 → Rat := fun _ _ => 1

def bqkvC : Fin 3 × Fin 1 × Fin 1 → Rat := fun _ => 0

def wheadC : Fin 1 → Fin 1 × Fin 1 → Rat := fun _ _ => 1

def bheadC : Fin 1 → Rat := fun _ => 0

def xMapA : FMap 1 (Fin 1) 1 2 := fun _ _ _ xx => if xx = 0 then 3 else 5

def xMapB : FMap 1 (Fin 1) 1 2 := fun _ _ _ xx => if xx = 0 then 3 else 7

/-- Witness for C8: the two maps agree at position (0, 0), so the outputs
there coincide although the maps differ elsewhere. -/
theorem overlap_window_1x1_pointwise_witness :
    OverlapWindowMHA2d_forward_win1 (fun _ => 1) 1 wqkvC bqkvC wheadC bheadC xMapA 0 0 0 0 =
    OverlapWindowMHA2d_forward_win1 (fun _ => 1) 1 wqkvC bqkvC wheadC bheadC xMapB 0 0 0 0 :=
  overlap_window_1x1_pointwise (fun _ => 1) 1 wqkvC bqkvC wheadC bheadC xMapA xMapB 0 0 0
    (fun _ => by norm_num) (fun ci => by rfl) 0

end AttentionSpec
